import Mathlib

/-!
Verification development for the `grave` repository-discovery tool.

The definitions below are a shallow embedding of the two core modules:

* `src/grave/api.py` — query construction (`build_search_query`), the
  multi-keyword fan-out and merge (`_multi_keyword_search`), and the
  search entry point (`search_repos`).  The external `gh` CLI is modelled
  as a function argument: one provider invocation maps a keyword (or no
  keyword) and a `--limit` value to either `some items` (exit code 0 with
  well-formed JSON) or `none` (non-zero exit, or JSON that fails to
  decode).  The qualifier flags and sort options shared by every call of
  one search are ambient in that function argument.

* `src/grave/db.py` — the SQLite store (`save_scan`, `save_repo`,
  `list_repos`, `clear_all`, `clear_scans`).  Tables are modelled as Lean
  lists of rows, `AUTOINCREMENT` ids as counters carried in the state,
  and `datetime.now(UTC).isoformat()` as an explicit timestamp argument.
  A raised `ValueError` is modelled as an `Option.none` result.

Python truthiness (`if s:` on an optional string treats both `None` and
`""` as absent) is modelled by `pyOptStr`.
-/

/-- Python truthiness for an optional string argument: `None` and the
empty string are both falsy. -/
def pyOptStr : Option String → Option String
  | none => none
  | some s => if s = "" then none else some s

/-- The digits of a numeral, as a number; `none` unless the character
list is nonempty and all digits.  (String primitives are modelled over
the character list so that every definition evaluates inside the
kernel.) -/
def digitsToNat? (cs : List Char) : Option Nat :=
  if cs ≠ [] ∧ cs.all Char.isDigit then
    some (cs.foldl (fun n c => 10 * n + (c.toNat - Char.toNat (Char.ofNat 48))) 0)
  else none

/-- Python `int(s)` on a character list: an optional sign followed by
digits; anything else raises `ValueError`, modelled as `none`.
(Surrounding whitespace and digit-group underscores are not
modelled.) -/
def parsePyIntChars : List Char → Option Int
  | '-' :: rest => (digitsToNat? rest).map (fun n => -(n : Int))
  | '+' :: rest => (digitsToNat? rest).map (fun n => (n : Int))
  | cs => (digitsToNat? cs).map (fun n => (n : Int))

/-- Python `int(s)` on a string. -/
def parsePyInt (s : String) : Option Int := parsePyIntChars s.data

/-! ### Query builder (`build_search_query`, api.py lines 96–144) -/

/-- Embeds `build_search_query`.  A `None` keyword list and an empty one
behave identically in the source (`if keywords:` guards a no-op
`extend`), so keywords are a plain list here. -/
def buildSearchQuery (keywords : List String)
    (created_range language stars_range pushed : Option String) : String :=
  let parts : List String :=
    keywords
      ++ (match pyOptStr created_range with
          | some v => ["created:" ++ v]
          | none => [])
      ++ (match pyOptStr language with
          | some v => ["language:" ++ v]
          | none => [])
      ++ (match pyOptStr stars_range with
          | some v => ["stars:" ++ v]
          | none => [])
      ++ (match pyOptStr pushed with
          | some v => ["pushed:" ++ v]
          | none => [])
  String.intercalate " " parts

/-- Spec-side description of the query builder, written from the spec's
words (§4.1): keywords first, space-joined, in caller order; then the
qualifiers in the fixed order created, language, stars, pushed, each as a
`name:value` token, omitted entirely when absent. -/
def buildQuerySpec (keywords : List String)
    (created_range language stars_range pushed : Option String) : String :=
  String.intercalate " "
    (keywords
      ++ (created_range.map (fun v => "created:" ++ v)).toList
      ++ (language.map (fun v => "language:" ++ v)).toList
      ++ (stars_range.map (fun v => "stars:" ++ v)).toList
      ++ (pushed.map (fun v => "pushed:" ++ v)).toList)

/-! ### Provider items and normalization (`_normalize_item`, api.py 153–168) -/

/-- One raw JSON item as returned by `gh search repos --json ...`.
Each field is optional, mirroring `dict.get` with a default. -/
structure RawItem where
  fullName : Option String := none
  description : Option String := none
  stargazersCount : Option Nat := none
  forksCount : Option Nat := none
  watchersCount : Option Nat := none
  openIssuesCount : Option Nat := none
  language : Option String := none
  createdAt : Option String := none
  pushedAt : Option String := none
  updatedAt : Option String := none
  url : Option String := none
deriving DecidableEq, Repr

/-- `item.get("fullName", "")` — the key the merge loop dedups on. -/
def rawName (item : RawItem) : String := item.fullName.getD ""

/-- The snake-case dict produced by `_normalize_item`. -/
structure NormItem where
  full_name : String
  description : String
  stargazers_count : Nat
  forks_count : Nat
  watchers_count : Nat
  open_issues_count : Nat
  language : String
  created_at : String
  pushed_at : String
  updated_at : String
  topics : List String
  html_url : String
deriving DecidableEq, Repr

/-- Embeds `_normalize_item`. -/
def normalizeItem (item : RawItem) : NormItem where
  full_name := item.fullName.getD ""
  description := item.description.getD ""
  stargazers_count := item.stargazersCount.getD 0
  forks_count := item.forksCount.getD 0
  watchers_count := item.watchersCount.getD 0
  open_issues_count := item.openIssuesCount.getD 0
  language := item.language.getD ""
  created_at := item.createdAt.getD ""
  pushed_at := item.pushedAt.getD ""
  updated_at := item.updatedAt.getD ""
  topics := []
  html_url := item.url.getD ""

/-! ### Stable descending sort

Python's `list.sort(key=..., reverse=True)` is a stable sort: elements
whose keys compare equal keep their original relative order.  A stable
sort for a given total preorder is unique, so the structurally recursive
insertion sort below (which inserts an element after every earlier
element with a strictly larger key, before the first with a key less
than or equal to it) computes exactly the list `list.sort` produces. -/

/-- Insert `x` into a descending-sorted list, after all elements with a
strictly larger key (stability: also after equal keys that were already
in place before `x` in the original list — see `sortByKeyDesc`). -/
def insertDescending {α β : Type} [LinearOrder β] (key : α → β) (x : α) :
    List α → List α
  | [] => [x]
  | y :: ys =>
    if key x < key y then y :: insertDescending key x ys
    else x :: y :: ys

/-- Stable sort, descending by `key`. -/
def sortByKeyDesc {α β : Type} [LinearOrder β] (key : α → β)
    (xs : List α) : List α :=
  xs.foldr (insertDescending key) []

/-! ### Multi-keyword fan-out and merge (`_multi_keyword_search`, api.py 171–205) -/

/-- The dedup loop body of `_multi_keyword_search`: walk the items of one
successful response, skipping any whose `fullName` was already seen and
appending the normalization of each new one. -/
def mergeLoop : List String → List NormItem → List RawItem →
    List String × List NormItem
  | seen, merged, [] => (seen, merged)
  | seen, merged, item :: rest =>
    if rawName item ∈ seen then mergeLoop seen merged rest
    else mergeLoop (rawName item :: seen) (merged ++ [normalizeItem item]) rest

/-- The outer keyword loop of `_multi_keyword_search`: one entry of
`responses` per keyword, in keyword order; `none` is a call whose exit
code was non-zero or whose output was not valid JSON, skipped silently
by `continue`. -/
def mergeResponses (responses : List (Option (List RawItem))) :
    List String × List NormItem :=
  responses.foldl
    (fun st resp =>
      match resp with
      | none => st
      | some items => mergeLoop st.1 st.2 items)
    ([], [])

/-- The merged, deduplicated item list before re-ranking and truncation
(api.py lines 179–201). -/
def mergedItems (responses : List (Option (List RawItem))) : List NormItem :=
  (mergeResponses responses).2

/-- All raw items of the successful responses, in processing order. -/
def allRawItems (responses : List (Option (List RawItem))) : List RawItem :=
  (responses.filterMap id).flatten

/-- Embeds `_multi_keyword_search` given the per-keyword provider
responses: dedup, then sort by stars descending, then cap at
`total_limit` (api.py lines 203–205). -/
def multiKeywordSearch (responses : List (Option (List RawItem)))
    (totalLimit : Nat) : List NormItem :=
  (sortByKeyDesc (fun r => r.stargazers_count) (mergedItems responses)).take
    totalLimit

/-! ### Search entry point (`search_repos`, api.py 208–319) -/

/-- The failures `search_repos` raises as `RuntimeError` in single-query
mode (stderr-pattern distinctions collapsed into the message). -/
inductive ProviderError where
  | runtimeError (msg : String)
deriving DecidableEq, Repr

/-- Helper for Python `query.split()`: walk the characters keeping the
current run of non-whitespace characters (reversed) and emit each
maximal run. -/
def splitWsAux : List Char → List Char → List String
  | [], acc => if acc.isEmpty then [] else [String.mk acc.reverse]
  | c :: cs, acc =>
    if c.isWhitespace then
      if acc.isEmpty then splitWsAux cs []
      else String.mk acc.reverse :: splitWsAux cs []
    else splitWsAux cs (c :: acc)

/-- `query.split()`: split on whitespace runs, no empty fields. -/
def queryParts (query : String) : List String :=
  splitWsAux query.data []

/-- The bare keywords of a query: every part not containing a colon.
Parts with a colon become qualifier flags on the shared base command. -/
def queryKeywords (query : String) : List String :=
  (queryParts query).filter (fun p => ¬ p.data.contains ':')

/-- The per-keyword result cap computed at api.py line 249:
`max(limit // len(keywords), 5)`. -/
def perKeywordLimit (limit n : Nat) : Nat := max (limit / n) 5

/-- Embeds `search_repos`.  `gh (some k) l` is the provider response for
one `gh search repos ... k --limit l` invocation (with this search's
shared qualifier and sort flags); `gh none l` is the keyword-less call.
A `none` response in single-query mode raises `RuntimeError`. -/
def searchRepos (gh : Option String → Nat → Option (List RawItem))
    (query : String) (limit : Nat) : Except ProviderError (List NormItem) :=
  let keywords := queryKeywords query
  if 1 < keywords.length then
    Except.ok
      (multiKeywordSearch
        (keywords.map (fun k => gh (some k) (perKeywordLimit limit keywords.length)))
        limit)
  else
    match gh keywords.head? limit with
    | none => Except.error (ProviderError.runtimeError "gh CLI failed")
    | some items => Except.ok (items.map normalizeItem)

/-! ### Repository store (`db.py`) -/

/-- One item dict as handed to `save_scan` / `save_repo`: `full_name` is
accessed with `item["full_name"]` (required), everything else through
`item.get(...)`.  `topics` defaults to `[]` and is stored serialized;
JSON serialization of a string list is injective, so the list itself
stands for the stored text. -/
structure Item where
  full_name : String
  description : Option String := none
  language : Option String := none
  stargazers_count : Option Nat := none
  forks_count : Option Nat := none
  watchers_count : Option Nat := none
  open_issues_count : Option Nat := none
  created_at : Option String := none
  pushed_at : Option String := none
  updated_at : Option String := none
  html_url : Option String := none
  topics : List String := []
deriving DecidableEq, Repr

/-- One row of the `repos` table. -/
structure RepoRow where
  id : Nat
  full_name : String
  description : Option String
  language : Option String
  stargazers_count : Option Nat
  forks_count : Option Nat
  watchers_count : Option Nat
  open_issues_count : Option Nat
  created_at : Option String
  pushed_at : Option String
  updated_at : Option String
  html_url : Option String
  topics : List String
  first_seen : String
  last_seen : String
deriving DecidableEq, Repr

/-- One row of the `scans` table. -/
structure ScanRow where
  id : Nat
  query : String
  preset_name : Option String
  timestamp : String
  result_count : Nat
deriving DecidableEq, Repr

/-- The store state: the three tables the core flows touch, plus the
`AUTOINCREMENT` counters (SQLite never reuses these, even after
deletes). The `tags` table is schema-only for the core flows. -/
structure DB where
  scans : List ScanRow
  repos : List RepoRow
  scanRepos : List (Nat × Nat)
  nextScanId : Nat
  nextRepoId : Nat
deriving DecidableEq, Repr

/-- A freshly initialized database (`init_db`): empty tables, ids from 1. -/
def emptyDB : DB :=
  { scans := [], repos := [], scanRepos := [], nextScanId := 1, nextRepoId := 1 }

/-- The `UPDATE repos SET ... WHERE full_name = ?` payload: every mutable
field and `last_seen` from the item, `id`, `full_name` and `first_seen`
untouched. -/
def updateFields (r : RepoRow) (item : Item) (now : String) : RepoRow :=
  { r with
    description := item.description
    language := item.language
    stargazers_count := item.stargazers_count
    forks_count := item.forks_count
    watchers_count := item.watchers_count
    open_issues_count := item.open_issues_count
    created_at := item.created_at
    pushed_at := item.pushed_at
    updated_at := item.updated_at
    html_url := item.html_url
    topics := item.topics
    last_seen := now }

/-- The `INSERT INTO repos ...` payload on first sight:
`first_seen = last_seen = now`. -/
def newRow (id : Nat) (item : Item) (now : String) : RepoRow :=
  { id
    full_name := item.full_name
    description := item.description
    language := item.language
    stargazers_count := item.stargazers_count
    forks_count := item.forks_count
    watchers_count := item.watchers_count
    open_issues_count := item.open_issues_count
    created_at := item.created_at
    pushed_at := item.pushed_at
    updated_at := item.updated_at
    html_url := item.html_url
    topics := item.topics
    first_seen := now
    last_seen := now }

/-- The upsert shared by `save_scan`'s item loop and `save_repo`:
`SELECT id, first_seen FROM repos WHERE full_name = ?`, then either
`UPDATE` (keyed by `full_name`) or `INSERT`.  Returns the new table,
the `repo_id` of the touched row, and the next `AUTOINCREMENT` value. -/
def upsertRepo (repos : List RepoRow) (nextRepoId : Nat) (item : Item)
    (now : String) : List RepoRow × Nat × Nat :=
  match repos.find? (fun r => r.full_name == item.full_name) with
  | some existing =>
    (repos.map (fun r =>
        if r.full_name == item.full_name then updateFields r item now else r),
      existing.id, nextRepoId)
  | none =>
    (repos ++ [newRow nextRepoId item now], nextRepoId, nextRepoId + 1)

/-- `INSERT OR IGNORE INTO scan_repos (scan_id, repo_id)`: the composite
primary key makes a duplicate pair a no-op. -/
def insertLink (links : List (Nat × Nat)) (pair : Nat × Nat) :
    List (Nat × Nat) :=
  if pair ∈ links then links else links ++ [pair]

/-- The item loop of `save_scan`: upsert each item and link it to the
scan, threading the table state. -/
def scanLoop (scanId : Nat) (now : String) (items : List Item) (d : DB) : DB :=
  items.foldl
    (fun d item =>
      let u := upsertRepo d.repos d.nextRepoId item now
      { d with
        repos := u.1
        nextRepoId := u.2.2
        scanRepos := insertLink d.scanRepos (scanId, u.2.1) })
    d

/-- Embeds `save_scan` (db.py lines 139–264): insert the scan row, then
upsert every item and link it to the scan.  Returns the new state and
the scan id. -/
def saveScan (db : DB) (query : String) (preset_name : Option String)
    (items : List Item) (now : String) : DB × Nat :=
  let scanId := db.nextScanId
  let db1 : DB :=
    { db with
      scans := db.scans ++
        [{ id := scanId, query := query, preset_name := preset_name,
           timestamp := now, result_count := items.length }]
      nextScanId := scanId + 1 }
  (scanLoop scanId now items db1, scanId)

/-- Embeds `save_repo` (db.py lines 267–365): the same upsert for a
single item, with no scan row and no link. -/
def saveRepo (db : DB) (item : Item) (now : String) : DB × Nat :=
  let u := upsertRepo db.repos db.nextRepoId item now
  ({ db with repos := u.1, nextRepoId := u.2.2 }, u.2.1)

/-- Embeds `clear_all`: delete every row of every table. -/
def clearAll (db : DB) : DB :=
  { db with scans := [], repos := [], scanRepos := [] }

/-- Embeds `clear_scans`: delete scan and association rows only. -/
def clearScans (db : DB) : DB :=
  { db with scans := [], scanRepos := [] }

/-! ### Filtered listing (`list_repos`, db.py lines 368–459) -/

/-- The shapes the stars filter of `list_repos` parses into. -/
inductive StarsFilter where
  | gt (n : Int)
  | lt (n : Int)
  | range (lo hi : Int)
  | exact (n : Int)
deriving DecidableEq, Repr

/-- Python `stars.split("..")` over the character list: split at each
non-overlapping occurrence of two consecutive dots, scanning left to
right. -/
def splitOnDotsAux : List Char → List Char → List (List Char)
  | [], acc => [acc.reverse]
  | '.' :: '.' :: cs, acc => acc.reverse :: splitOnDotsAux cs []
  | c :: cs, acc => splitOnDotsAux cs (c :: acc)

/-- The stars-branch of `list_repos`: `>` and `<` prefixes first, then a
`..` range (both endpoints through `int()`), else a bare integer; any
`int()` failure is a raised `ValueError` (`none`). -/
def parseStars (stars : String) : Option StarsFilter :=
  match stars.data with
  | '>' :: rest => (parsePyIntChars rest).map StarsFilter.gt
  | '<' :: rest => (parsePyIntChars rest).map StarsFilter.lt
  | cs =>
    if (splitOnDotsAux cs []).length ≥ 2 then
      match parsePyIntChars ((splitOnDotsAux cs []).getD 0 []),
          parsePyIntChars ((splitOnDotsAux cs []).getD 1 []) with
      | some lo, some hi => some (StarsFilter.range lo hi)
      | _, _ => none
    else
      (parsePyIntChars cs).map StarsFilter.exact

/-- SQL comparison of `repos.stargazers_count` against the parsed stars
filter; a NULL column never satisfies a comparison. -/
def starsHolds (f : StarsFilter) (r : RepoRow) : Bool :=
  match r.stargazers_count with
  | none => false
  | some v =>
    match f with
    | StarsFilter.gt n => decide (n < (v : Int))
    | StarsFilter.lt n => decide ((v : Int) < n)
    | StarsFilter.range lo hi => decide (lo ≤ (v : Int)) && decide ((v : Int) ≤ hi)
    | StarsFilter.exact n => decide ((v : Int) = n)

/-- The `WHERE` clause of `list_repos` for one `repos` row: the preset
filter is the `INNER JOIN` through `scan_repos` and `scans` (the row
survives iff some matching join row exists; `SELECT DISTINCT repos.*`
collapses the join multiplicity), the rest are column predicates,
all conjoined. -/
def rowPasses (db : DB) (language : Option String)
    (starsF : Option StarsFilter) (preset since : Option String)
    (r : RepoRow) : Bool :=
  (match preset with
    | none => true
    | some p =>
      db.scanRepos.any (fun link =>
        link.2 == r.id &&
          db.scans.any (fun s => s.id == link.1 && s.preset_name == some p)))
  && (match language with
    | none => true
    | some lg => r.language == some lg)
  && (match starsF with
    | none => true
    | some f => starsHolds f r)
  && (match since with
    | none => true
    | some d => decide (d.data ≤ r.first_seen.data))

/-- The query `list_repos` executes once the parameters are bound:
filter, `ORDER BY first_seen DESC`, `LIMIT ?`. -/
def listReposFiltered (db : DB) (language : Option String)
    (starsF : Option StarsFilter) (preset since : Option String)
    (limit : Nat) : List RepoRow :=
  (sortByKeyDesc (fun r => r.first_seen.data)
      (db.repos.filter (rowPasses db language starsF preset since))).take limit

/-- Embeds `list_repos`.  The stars string is parsed while the SQL text
is being built, before any row is consulted, so a malformed value
aborts the whole call (`ValueError`, modelled as `none`) regardless of
the stored data. -/
def listRepos (db : DB) (language stars preset since : Option String)
    (limit : Nat) : Option (List RepoRow) :=
  match pyOptStr stars with
  | some s =>
    match parseStars s with
    | none => none
    | some f =>
      some (listReposFiltered db (pyOptStr language) (some f)
        (pyOptStr preset) (pyOptStr since) limit)
  | none =>
    some (listReposFiltered db (pyOptStr language) none
      (pyOptStr preset) (pyOptStr since) limit)

/-! ### Reachable store states -/

/-- The store operations a command sequence can perform. -/
inductive Op where
  | scan (query : String) (preset_name : Option String) (items : List Item)
  | repo (item : Item)
  | clearScansOp
  | clearAllOp
deriving Repr

/-- Apply one operation at one wall-clock instant. -/
def applyOp (db : DB) (op : Op) (now : String) : DB :=
  match op with
  | Op.scan q p items => (saveScan db q p items now).1
  | Op.repo item => (saveRepo db item now).1
  | Op.clearScansOp => clearScans db
  | Op.clearAllOp => clearAll db

/-- Run a sequence of timestamped operations. -/
def runOps (db : DB) : List (Op × String) → DB
  | [] => db
  | (op, t) :: rest => runOps (applyOp db op t) rest

/-- At most one `repos` row per `full_name` (the `UNIQUE` column). -/
def namesUnique (repos : List RepoRow) : Prop :=
  repos.Pairwise (fun a b => a.full_name ≠ b.full_name)

/-- Every row satisfies `first_seen <= last_seen` (ISO-8601 strings,
compared lexicographically on their character sequence, which matches
the bytewise comparison of the encoded text). -/
def seenOrdered (repos : List RepoRow) : Prop :=
  ∀ r ∈ repos, r.first_seen.data ≤ r.last_seen.data

/-- Every row was last touched no later than `t`. -/
def seenBounded (repos : List RepoRow) (t : String) : Prop :=
  ∀ r ∈ repos, r.last_seen.data ≤ t.data

/-- Insert the same `(scan_id, repo_id)` pair `n` times in a row. -/
def repeatLink (pair : Nat × Nat) : Nat → List (Nat × Nat) → List (Nat × Nat)
  | 0, links => links
  | n + 1, links => repeatLink pair n (insertLink links pair)

/-- What a repeat upsert of `item` at time `now` must do to an existing
row `r`: keep `id`, `full_name` and `first_seen`, set `last_seen := now`,
and take every mutable field from `item`. -/
def reflectsSecondUpsert (r' r : RepoRow) (item : Item) (now : String) : Prop :=
  r'.id = r.id ∧ r'.full_name = r.full_name ∧
    r'.first_seen = r.first_seen ∧ r'.last_seen = now ∧
    r'.description = item.description ∧ r'.language = item.language ∧
    r'.stargazers_count = item.stargazers_count ∧
    r'.forks_count = item.forks_count ∧
    r'.watchers_count = item.watchers_count ∧
    r'.open_issues_count = item.open_issues_count ∧
    r'.created_at = item.created_at ∧ r'.pushed_at = item.pushed_at ∧
    r'.updated_at = item.updated_at ∧ r'.html_url = item.html_url ∧
    r'.topics = item.topics

/-! ### Concrete fixtures for evaluating the model -/

/-- A stored row used when evaluating upsert behaviour. -/
def rowR1 : RepoRow :=
  { id := 1, full_name := "octo/grave", description := some "old words",
    language := some "Python", stargazers_count := some 3,
    forks_count := some 1, watchers_count := some 3,
    open_issues_count := some 0, created_at := some "2009-02-01T00:00:00Z",
    pushed_at := some "2013-05-01T00:00:00Z",
    updated_at := some "2013-06-01T00:00:00Z",
    html_url := some "https://example.test/octo/grave", topics := [],
    first_seen := "2024-01-01T00:00:00+00:00",
    last_seen := "2024-01-01T00:00:00+00:00" }

/-- A second observation of the same repository with changed fields. -/
def itemR1v2 : Item :=
  { full_name := "octo/grave", description := some "new words",
    language := some "Python", stargazers_count := some 9,
    forks_count := some 2, watchers_count := some 9,
    open_issues_count := some 1, created_at := some "2009-02-01T00:00:00Z",
    pushed_at := some "2014-05-01T00:00:00Z",
    updated_at := some "2014-06-01T00:00:00Z",
    html_url := some "https://example.test/octo/grave",
    topics := ["archive"] }

/-- A one-row store holding `rowR1`. -/
def dbR1 : DB :=
  { scans := [], repos := [rowR1], scanRepos := [], nextScanId := 1,
    nextRepoId := 2 }

/-- A stored Go repository at 150 stars, for exercising listing
filters. -/
def rowGo : RepoRow :=
  { id := 1, full_name := "go/fast", description := none,
    language := some "Go", stargazers_count := some 150,
    forks_count := none, watchers_count := none,
    open_issues_count := none, created_at := none, pushed_at := none,
    updated_at := none, html_url := none, topics := [],
    first_seen := "2024-02-02T00:00:00+00:00",
    last_seen := "2024-02-02T00:00:00+00:00" }

/-- A one-row store holding `rowGo`. -/
def dbGo : DB :=
  { scans := [], scanRepos := [], nextScanId := 1, nextRepoId := 3,
    repos := [rowGo] }

/-- Raw item R1 of the spec's end-to-end fan-out scenario (5 stars). -/
def rawR1 : RawItem := { fullName := some "owner/r1", stargazersCount := some 5 }

/-- Raw item R2 of the scenario (50 stars), returned by both keywords. -/
def rawR2 : RawItem := { fullName := some "owner/r2", stargazersCount := some 50 }

/-- Raw item R3 of the scenario (20 stars). -/
def rawR3 : RawItem := { fullName := some "owner/r3", stargazersCount := some 20 }

/-- A duplicated name observed with different star counts by two
keywords. -/
def rawDupFirst : RawItem :=
  { fullName := some "owner/dup", stargazersCount := some 1 }

/-- The later observation of the same name. -/
def rawDupSecond : RawItem :=
  { fullName := some "owner/dup", stargazersCount := some 9 }

/-! ### Lemmas about the stable descending sort -/

theorem mem_insertDescending {α β : Type} [LinearOrder β] (key : α → β)
    (x a : α) : ∀ l : List α, (a ∈ insertDescending key x l ↔ a = x ∨ a ∈ l)
  | [] => by simp [insertDescending]
  | y :: ys => by
    by_cases hlt : key x < key y
    · simp only [insertDescending, if_pos hlt, List.mem_cons,
        mem_insertDescending key x a ys]
      tauto
    · simp only [insertDescending, if_neg hlt, List.mem_cons]

theorem sorted_insertDescending {α β : Type} [LinearOrder β] (key : α → β)
    (x : α) : ∀ l : List α,
    List.Sorted (fun a b => key b ≤ key a) l →
      List.Sorted (fun a b => key b ≤ key a) (insertDescending key x l)
  | [], _ => by simp [insertDescending]
  | y :: ys, h => by
    rw [List.sorted_cons] at h
    by_cases hlt : key x < key y
    · rw [insertDescending, if_pos hlt, List.sorted_cons]
      refine ⟨fun b hb => ?_, sorted_insertDescending key x ys h.2⟩
      rcases (mem_insertDescending key x b ys).1 hb with rfl | hb'
      · exact le_of_lt hlt
      · exact h.1 b hb'
    · rw [insertDescending, if_neg hlt, List.sorted_cons]
      refine ⟨fun b hb => ?_, List.sorted_cons.2 h⟩
      rcases List.mem_cons.1 hb with rfl | hb'
      · exact not_lt.1 hlt
      · exact le_trans (h.1 b hb') (not_lt.1 hlt)

theorem sorted_sortByKeyDesc {α β : Type} [LinearOrder β] (key : α → β)
    (xs : List α) :
    List.Sorted (fun a b => key b ≤ key a) (sortByKeyDesc key xs) := by
  induction xs with
  | nil => simp [sortByKeyDesc]
  | cons x rest ih => exact sorted_insertDescending key x _ ih

theorem mem_sortByKeyDesc {α β : Type} [LinearOrder β] (key : α → β)
    (a : α) (xs : List α) : a ∈ sortByKeyDesc key xs ↔ a ∈ xs := by
  induction xs with
  | nil => simp [sortByKeyDesc]
  | cons x rest ih =>
    simp only [sortByKeyDesc, List.foldr_cons] at ih ⊢
    rw [mem_insertDescending, ih, List.mem_cons]

/-! ### Lemmas about the merge loop -/

theorem mergeLoop_append (xs ys : List RawItem) :
    ∀ (seen : List String) (acc : List NormItem),
      mergeLoop seen acc (xs ++ ys) =
        mergeLoop (mergeLoop seen acc xs).1 (mergeLoop seen acc xs).2 ys := by
  induction xs with
  | nil => intro seen acc; simp [mergeLoop]
  | cons i rest ih =>
    intro seen acc
    by_cases h : rawName i ∈ seen
    · simpa [mergeLoop, h] using ih seen acc
    · simpa [mergeLoop, h] using ih (rawName i :: seen) (acc ++ [normalizeItem i])

theorem mergeResponses_eq_mergeLoop (responses : List (Option (List RawItem))) :
    mergeResponses responses = mergeLoop [] [] (allRawItems responses) := by
  suffices h : ∀ (rs : List (Option (List RawItem)))
      (st : List String × List NormItem),
      rs.foldl
        (fun st resp =>
          match resp with
          | none => st
          | some items => mergeLoop st.1 st.2 items) st =
        mergeLoop st.1 st.2 (allRawItems rs) by
    simpa [mergeResponses] using h responses ([], [])
  intro rs
  induction rs with
  | nil => intro st; simp [allRawItems, mergeLoop]
  | cons r rest ih =>
    intro st
    cases r with
    | none => simpa [allRawItems, List.filterMap_cons] using ih st
    | some items =>
      simp only [allRawItems, List.filterMap_cons, id, List.flatten_cons,
        List.foldl_cons, mergeLoop_append]
      exact ih (mergeLoop st.1 st.2 items)

theorem mergeLoop_filter (name : String) :
    ∀ (items : List RawItem) (seen : List String) (acc : List NormItem),
      (mergeLoop seen acc items).2.filter (fun r => r.full_name == name) =
        acc.filter (fun r => r.full_name == name) ++
          (if name ∈ seen then []
           else
             match items.find? (fun i => rawName i == name) with
             | some i => [normalizeItem i]
             | none => [])
  | [], seen, acc => by
    by_cases h : name ∈ seen <;> simp [mergeLoop, h]
  | i :: rest, seen, acc => by
    by_cases hseen : rawName i ∈ seen
    · rw [mergeLoop, if_pos hseen, mergeLoop_filter name rest seen acc]
      by_cases hname : name ∈ seen
      · simp [hname]
      · have hne : ¬ rawName i == name := by
          intro hb
          exact hname (by simpa using (beq_iff_eq.1 hb) ▸ hseen)
        simp [hname, List.find?_cons, hne]
    · rw [mergeLoop, if_neg hseen,
        mergeLoop_filter name rest (rawName i :: seen) (acc ++ [normalizeItem i])]
      by_cases heq : rawName i = name
      · subst heq
        have hfull : (normalizeItem i).full_name = rawName i := rfl
        simp [hseen, List.filter_append, hfull, List.find?_cons]
      · have hne : ¬ rawName i == name := by simpa using heq
        have hfull : ((normalizeItem i).full_name == name) = false := by
          simpa [normalizeItem, rawName] using heq
        by_cases hname : name ∈ seen
        · simp [hname, heq, List.filter_append, hfull]
        · simp [hname, heq, List.filter_append, hfull, List.find?_cons, hne]
          intro h
          exact absurd h.symm heq

theorem mergeResponses_all_none (responses : List (Option (List RawItem)))
    (h : ∀ r ∈ responses, r = none) : mergeResponses responses = ([], []) := by
  rw [mergeResponses_eq_mergeLoop]
  have : allRawItems responses = [] := by
    induction responses with
    | nil => rfl
    | cons r rest ih =>
      have hr := h r (by simp)
      subst hr
      simpa [allRawItems, List.filterMap_cons] using
        ih (fun r hr => h r (by simp [hr]))
  rw [this]
  rfl

/-! ### Lemmas about the store -/

theorem upsertRepo_updates (repos : List RepoRow) (nid : Nat) (item : Item)
    (now : String) (r : RepoRow) (hr : r ∈ repos)
    (hname : r.full_name = item.full_name) :
    updateFields r item now ∈ (upsertRepo repos nid item now).1 := by
  have hfind : (repos.find? (fun x => x.full_name == item.full_name)).isSome := by
    rw [List.find?_isSome]
    exact ⟨r, hr, by simp [hname]⟩
  obtain ⟨y, hy⟩ := Option.isSome_iff_exists.mp hfind
  simp only [upsertRepo, hy]
  exact List.mem_map.2 ⟨r, hr, by simp [hname]⟩

theorem upsertRepo_inv (repos : List RepoRow) (nid : Nat) (item : Item)
    (now t : String) (hnu : namesUnique repos) (hso : seenOrdered repos)
    (hsb : seenBounded repos t) (ht : t.data ≤ now.data) :
    namesUnique (upsertRepo repos nid item now).1 ∧
      seenOrdered (upsertRepo repos nid item now).1 ∧
      seenBounded (upsertRepo repos nid item now).1 now := by
  have hkeep : ∀ a : RepoRow,
      ((if a.full_name == item.full_name then updateFields a item now
        else a)).full_name = a.full_name := by
    intro a; split <;> rfl
  cases hfind : repos.find? (fun x => x.full_name == item.full_name) with
  | some y =>
    simp only [upsertRepo, hfind]
    refine ⟨?_, ?_, ?_⟩
    · unfold namesUnique at hnu ⊢
      rw [List.pairwise_map]
      refine hnu.imp ?_
      intro a b hab
      rw [hkeep a, hkeep b]
      exact hab
    · intro x hx
      obtain ⟨a, ha, rfl⟩ := List.mem_map.1 hx
      by_cases hm : a.full_name == item.full_name
      · simp only [if_pos hm, updateFields]
        exact le_trans (hso a ha) (le_trans (hsb a ha) ht)
      · simp only [if_neg hm]
        exact hso a ha
    · intro x hx
      obtain ⟨a, ha, rfl⟩ := List.mem_map.1 hx
      by_cases hm : a.full_name == item.full_name
      · simp only [if_pos hm, updateFields]
        exact le_rfl
      · simp only [if_neg hm]
        exact le_trans (hsb a ha) ht
  | none =>
    have hnotin : ∀ r ∈ repos, r.full_name ≠ item.full_name := by
      intro r hr
      have := List.find?_eq_none.1 hfind r hr
      simpa using this
    simp only [upsertRepo, hfind]
    refine ⟨?_, ?_, ?_⟩
    · unfold namesUnique
      rw [List.pairwise_append]
      refine ⟨hnu, by simp, ?_⟩
      intro a ha b hb
      have hb' : b = newRow nid item now := by simpa using hb
      subst hb'
      simpa [newRow] using hnotin a ha
    · intro x hx
      rcases List.mem_append.1 hx with hx' | hx'
      · exact hso x hx'
      · have hx'' : x = newRow nid item now := by simpa using hx'
        subst hx''
        simp [newRow]
    · intro x hx
      rcases List.mem_append.1 hx with hx' | hx'
      · exact le_trans (hsb x hx') ht
      · have hx'' : x = newRow nid item now := by simpa using hx'
        subst hx''
        simp [newRow]

theorem scanLoop_inv (scanId : Nat) (now : String) :
    ∀ (items : List Item) (d : DB),
      namesUnique d.repos → seenOrdered d.repos → seenBounded d.repos now →
      namesUnique (scanLoop scanId now items d).repos ∧
        seenOrdered (scanLoop scanId now items d).repos ∧
        seenBounded (scanLoop scanId now items d).repos now
  | [], d, h1, h2, h3 => by
    simpa [scanLoop] using ⟨h1, h2, h3⟩
  | i :: rest, d, h1, h2, h3 => by
    have step := upsertRepo_inv d.repos d.nextRepoId i now now h1 h2 h3 le_rfl
    have tail := scanLoop_inv scanId now rest
      { d with
        repos := (upsertRepo d.repos d.nextRepoId i now).1
        nextRepoId := (upsertRepo d.repos d.nextRepoId i now).2.2
        scanRepos := insertLink d.scanRepos
          (scanId, (upsertRepo d.repos d.nextRepoId i now).2.1) }
      step.1 step.2.1 step.2.2
    simpa [scanLoop, List.foldl_cons] using tail

theorem applyOp_inv (db : DB) (op : Op) (t now : String)
    (h1 : namesUnique db.repos) (h2 : seenOrdered db.repos)
    (h3 : seenBounded db.repos t) (ht : t.data ≤ now.data) :
    namesUnique (applyOp db op now).repos ∧
      seenOrdered (applyOp db op now).repos ∧
      seenBounded (applyOp db op now).repos now := by
  have h3' : seenBounded db.repos now := fun r hr => le_trans (h3 r hr) ht
  cases op with
  | scan q p items =>
    have hloop := scanLoop_inv db.nextScanId now items
      { db with
        scans := db.scans ++
          [{ id := db.nextScanId, query := q, preset_name := p,
             timestamp := now, result_count := items.length }]
        nextScanId := db.nextScanId + 1 }
      h1 h2 h3'
    simpa [applyOp, saveScan] using hloop
  | repo item =>
    simpa [applyOp, saveRepo] using
      upsertRepo_inv db.repos db.nextRepoId item now t h1 h2 h3 ht
  | clearScansOp => exact ⟨h1, h2, h3'⟩
  | clearAllOp =>
    refine ⟨?_, ?_, ?_⟩ <;>
      simp [applyOp, clearAll, namesUnique, seenOrdered, seenBounded]

theorem runOps_inv :
    ∀ (ops : List (Op × String)) (db : DB) (t : String),
      namesUnique db.repos → seenOrdered db.repos → seenBounded db.repos t →
      (∀ p ∈ ops, t.data ≤ p.2.data) →
      (ops.map Prod.snd).Pairwise (fun a b => a.data ≤ b.data) →
      namesUnique (runOps db ops).repos ∧ seenOrdered (runOps db ops).repos
  | [], _, _, h1, h2, _, _, _ => ⟨h1, h2⟩
  | (op, t1) :: rest, db, t, h1, h2, h3, hlb, hpw => by
    have ht1 : t.data ≤ t1.data := hlb (op, t1) (by simp)
    have step := applyOp_inv db op t t1 h1 h2 h3 ht1
    rw [List.map_cons, List.pairwise_cons] at hpw
    refine runOps_inv rest (applyOp db op t1) t1 step.1 step.2.1 step.2.2 ?_ hpw.2
    intro p hp
    exact hpw.1 p.2 (List.mem_map.2 ⟨p, hp, rfl⟩)

theorem insertLink_count (links : List (Nat × Nat)) (pair : Nat × Nat)
    (h : links.count pair ≤ 1) : (insertLink links pair).count pair = 1 := by
  unfold insertLink
  split
  · next hmem =>
    have h1 : 0 < links.count pair := List.count_pos_iff.2 hmem
    omega
  · next hmem =>
    have h0 : links.count pair = 0 := by
      simpa using List.count_eq_zero.2 hmem
    rw [List.count_append, h0]
    simp

theorem repeatLink_keeps (pair : Nat × Nat) :
    ∀ (n : Nat) (links : List (Nat × Nat)), links.count pair = 1 →
      (repeatLink pair n links).count pair = 1
  | 0, links, h => h
  | n + 1, links, h => by
    rw [repeatLink]
    exact repeatLink_keeps pair n _ (insertLink_count links pair (le_of_eq h))

theorem listReposFiltered_spec (db : DB) (langF : Option String)
    (starsF : Option StarsFilter) (presF sinceF : Option String)
    (limit : Nat) :
    (listReposFiltered db langF starsF presF sinceF limit).length ≤ limit ∧
      List.Sorted (fun a b : RepoRow => b.first_seen.data ≤ a.first_seen.data)
        (listReposFiltered db langF starsF presF sinceF limit) ∧
      ∀ r ∈ listReposFiltered db langF starsF presF sinceF limit,
        rowPasses db langF starsF presF sinceF r = true := by
  refine ⟨?_, ?_, ?_⟩
  · simp [listReposFiltered]
  · have hs := sorted_sortByKeyDesc (fun r : RepoRow => r.first_seen.data)
      (db.repos.filter (rowPasses db langF starsF presF sinceF))
    exact hs.sublist (List.take_sublist _ _)
  · intro r hr
    have h1 : r ∈ sortByKeyDesc (fun r : RepoRow => r.first_seen.data)
        (db.repos.filter (rowPasses db langF starsF presF sinceF)) :=
      List.mem_of_mem_take hr
    exact List.of_mem_filter ((mem_sortByKeyDesc _ r _).1 h1)

/-! ### Claim theorems -/

/-- C1 counterexample: with two keywords and every per-keyword provider
call failing (non-zero exit or malformed JSON, modelled as a `none`
response), `search_repos` returns a successful empty result list — it
does not raise or return a provider error as the claim requires. -/
theorem searchRepos_total_failure_counterexample :
    1 < (queryKeywords "alpha beta").length ∧
      searchRepos (fun _ _ => none) "alpha beta" 10 = Except.ok [] :=
  ⟨by decide, rfl⟩

/-- C1 (amended): for every filter with keyword count `N > 1`,
`search_repos` never raises for per-keyword failures: it always returns
a result list; if every per-keyword call fails the list is empty, and
with at least one success it is a (possibly short) result list. -/
theorem searchRepos_multi_never_fails
    (gh : Option String → Nat → Option (List RawItem)) (query : String)
    (limit : Nat) (hN : 1 < (queryKeywords query).length) :
    (∃ items, searchRepos gh query limit = Except.ok items) ∧
      ((∀ k n, gh (some k) n = none) →
        searchRepos gh query limit = Except.ok []) := by
  constructor
  · exact ⟨multiKeywordSearch ((queryKeywords query).map
        (fun k => gh (some k)
          (perKeywordLimit limit (queryKeywords query).length))) limit,
      by simp [searchRepos, hN]⟩
  · intro hfail
    have hresp : ∀ r ∈ (queryKeywords query).map
        (fun k => gh (some k)
          (perKeywordLimit limit (queryKeywords query).length)), r = none := by
      intro r hr
      obtain ⟨k, _, rfl⟩ := List.mem_map.1 hr
      exact hfail k _
    have hmerged : mergedItems ((queryKeywords query).map
        (fun k => gh (some k)
          (perKeywordLimit limit (queryKeywords query).length))) = [] := by
      simp [mergedItems, mergeResponses_all_none _ hresp]
    simp [searchRepos, hN, multiKeywordSearch, hmerged, sortByKeyDesc]

/-- Witness for C1's amended theorem at a concrete two-keyword query. -/
theorem searchRepos_multi_never_fails_witness :
    ∃ items, searchRepos (fun _ _ => some []) "alpha beta" 3 =
      Except.ok items :=
  (searchRepos_multi_never_fails (fun _ _ => some []) "alpha beta" 3
    (by decide)).1

/-- C2: `build_search_query` emits the keywords first, space-joined, in
caller order, then the qualifiers in the fixed order created, language,
stars, pushed, each as a `name:value` token, with absent fields
contributing no token — stated as agreement with `buildQuerySpec`, the
definition transcribed from the spec's words, for every filter whose
present qualifier values are nonempty (Python truthiness makes the code
treat an empty string like an absent field).  Determinism is inherent:
both sides are pure functions of the filter. -/
theorem buildSearchQuery_matches_spec (kws : List String)
    (c l st p : Option String)
    (hc : ∀ v, c = some v → v ≠ "") (hl : ∀ v, l = some v → v ≠ "")
    (hs : ∀ v, st = some v → v ≠ "") (hp : ∀ v, p = some v → v ≠ "") :
    buildSearchQuery kws c l st p = buildQuerySpec kws c l st p := by
  have ec : pyOptStr c = c := by
    cases c with
    | none => rfl
    | some v => simp [pyOptStr, hc v rfl]
  have el : pyOptStr l = l := by
    cases l with
    | none => rfl
    | some v => simp [pyOptStr, hl v rfl]
  have es : pyOptStr st = st := by
    cases st with
    | none => rfl
    | some v => simp [pyOptStr, hs v rfl]
  have ep : pyOptStr p = p := by
    cases p with
    | none => rfl
    | some v => simp [pyOptStr, hp v rfl]
  simp only [buildSearchQuery, buildQuerySpec, ec, el, es, ep]
  cases c <;> cases l <;> cases st <;> cases p <;> rfl

/-- Witness for C2 at the docstring's example filter. -/
theorem buildSearchQuery_matches_spec_witness :
    buildSearchQuery ["democracy", "utopia"]
        (some "2008-01-01..2012-12-31") (some "Python") (some ">10") none =
      buildQuerySpec ["democracy", "utopia"]
        (some "2008-01-01..2012-12-31") (some "Python") (some ">10") none ∧
      buildQuerySpec ["democracy", "utopia"]
          (some "2008-01-01..2012-12-31") (some "Python") (some ">10") none =
        "democracy utopia created:2008-01-01..2012-12-31 language:Python stars:>10" :=
  ⟨buildSearchQuery_matches_spec ["democracy", "utopia"]
      (some "2008-01-01..2012-12-31") (some "Python") (some ">10") none
      (fun v hv => by injection hv with h; subst h; decide)
      (fun v hv => by injection hv with h; subst h; decide)
      (fun v hv => by injection hv with h; subst h; decide)
      (fun v hv => by cases hv),
    by decide⟩

/-- C3: with keyword count `N > 1`, the fan-out issues every per-keyword
provider call with limit `max(total_limit // N, 5)` (floor division),
and `perKeywordLimit 10 5 = 5` — not 2. -/
theorem searchRepos_per_keyword_limit
    (gh : Option String → Nat → Option (List RawItem)) (query : String)
    (limit : Nat) (hN : 1 < (queryKeywords query).length) :
    searchRepos gh query limit =
      Except.ok (multiKeywordSearch
        ((queryKeywords query).map
          (fun k =>
            gh (some k) (max (limit / (queryKeywords query).length) 5)))
        limit) ∧
      perKeywordLimit 10 5 = 5 := by
  refine ⟨?_, rfl⟩
  simp [searchRepos, hN, perKeywordLimit]

/-- Witness for C3 at a two-keyword query with `total_limit = 10`. -/
theorem searchRepos_per_keyword_limit_witness :
    searchRepos (fun _ _ => some []) "alpha beta" 10 =
      Except.ok (multiKeywordSearch
        ((queryKeywords "alpha beta").map (fun _ => some [])) 10) ∧
      perKeywordLimit 10 5 = 5 :=
  searchRepos_per_keyword_limit (fun _ _ => some []) "alpha beta" 10
    (by decide)

/-- C4: whenever a `full_name` occurs among the items of the successful
keyword responses (in particular when it occurs in two or more result
sets), the deduplicated merge output contains exactly one record for
that name — filtering the merged list by the name yields a singleton —
and that record is the normalization of the first-encountered raw item
with that name, from the earliest-processed keyword; later duplicates
are dropped entirely, never merged field-by-field. -/
theorem mergedItems_keeps_first (responses : List (Option (List RawItem)))
    (name : String) (first : RawItem)
    (hfind : (allRawItems responses).find? (fun i => rawName i == name) =
      some first) :
    (mergedItems responses).filter (fun r => r.full_name == name) =
      [normalizeItem first] := by
  have h := mergeLoop_filter name (allRawItems responses) [] []
  rw [mergedItems, mergeResponses_eq_mergeLoop, h]
  simp [hfind]

/-- Witness for C4: a name seen by both keywords keeps its first
observation. -/
theorem mergedItems_keeps_first_witness :
    (mergedItems [some [rawDupFirst], some [rawDupSecond]]).filter
        (fun r => r.full_name == "owner/dup") =
      [normalizeItem rawDupFirst] :=
  mergedItems_keeps_first [some [rawDupFirst], some [rawDupSecond]]
    "owner/dup" rawDupFirst (by decide)

/-- C5: the fan-out merge output never exceeds `total_limit` and is
sorted by star count descending; at the spec's example — keyword-a
returning R1 (5 stars) and R2 (50 stars), keyword-b returning R2 and
R3 (20 stars), `total_limit = 2` — the output is exactly [R2, R3]. -/
theorem multiKeywordSearch_cap_and_sorted :
    (∀ (responses : List (Option (List RawItem))) (totalLimit : Nat),
      (multiKeywordSearch responses totalLimit).length ≤ totalLimit ∧
        List.Sorted
          (fun a b : NormItem => b.stargazers_count ≤ a.stargazers_count)
          (multiKeywordSearch responses totalLimit)) ∧
      multiKeywordSearch [some [rawR1, rawR2], some [rawR2, rawR3]] 2 =
        [normalizeItem rawR2, normalizeItem rawR3] := by
  refine ⟨fun responses totalLimit => ⟨?_, ?_⟩, by decide⟩
  · simp [multiKeywordSearch]
  · exact (sorted_sortByKeyDesc _ _).sublist (List.take_sublist _ _)

/-- C6: when a row for `item.full_name` is already stored, a repeat
upsert — through `save_repo`, or through `save_scan` carrying the item —
keeps `first_seen` from the first insertion while `last_seen` becomes
the new timestamp and every other field (description, language, the
four counters, the three timestamps, url, topics) takes the second
call's values. -/
theorem upsert_second_sight (db : DB) (item : Item) (now : String)
    (r : RepoRow) (hr : r ∈ db.repos)
    (hname : r.full_name = item.full_name) :
    (∃ r' ∈ ((saveRepo db item now).1).repos,
        reflectsSecondUpsert r' r item now) ∧
      ∀ q p, ∃ r' ∈ ((saveScan db q p [item] now).1).repos,
        reflectsSecondUpsert r' r item now := by
  have hmem := upsertRepo_updates db.repos db.nextRepoId item now r hr hname
  have hprops : reflectsSecondUpsert (updateFields r item now) r item now := by
    simp [reflectsSecondUpsert, updateFields]
  constructor
  · exact ⟨updateFields r item now, by simpa [saveRepo] using hmem, hprops⟩
  · intro q p
    refine ⟨updateFields r item now, ?_, hprops⟩
    simpa [saveScan, scanLoop] using hmem

/-- Witness for C6: a second sighting of `octo/grave` with new field
values. -/
theorem upsert_second_sight_witness :
    ∃ r' ∈ ((saveRepo dbR1 itemR1v2 "2024-03-03T00:00:00+00:00").1).repos,
      reflectsSecondUpsert r' rowR1 itemR1v2 "2024-03-03T00:00:00+00:00" :=
  (upsert_second_sight dbR1 itemR1v2 "2024-03-03T00:00:00+00:00" rowR1
    (by decide) (by decide)).1

/-- C7: inserting the same `(scan_id, repo_id)` pair any positive number
of times leaves exactly one association row for that pair — the pair
behaves as a set member — given that the table held at most one copy
beforehand (what the composite primary key enforces). -/
theorem insertLink_idempotent (links : List (Nat × Nat)) (pair : Nat × Nat)
    (n : Nat) (hcount : links.count pair ≤ 1) (hn : 1 ≤ n) :
    (repeatLink pair n links).count pair = 1 := by
  cases n with
  | zero => omega
  | succ m =>
    rw [repeatLink]
    exact repeatLink_keeps pair m _ (insertLink_count links pair hcount)

/-- Witness for C7: linking the pair (3, 7) twice into an empty table. -/
theorem insertLink_idempotent_witness :
    (repeatLink (3, 7) 2 []).count (3, 7) = 1 :=
  insertLink_idempotent [] (3, 7) 2 (by decide) (by decide)

theorem rowPasses_unpack (db : DB) (langF : Option String)
    (starsF : Option StarsFilter) (presF sinceF : Option String)
    (r : RepoRow) (h : rowPasses db langF starsF presF sinceF r = true) :
    (∀ lg, langF = some lg → r.language = some lg) ∧
      (∀ d, sinceF = some d → d.data ≤ r.first_seen.data) ∧
      (∀ p, presF = some p →
        ∃ link ∈ db.scanRepos, link.2 = r.id ∧
          ∃ sc ∈ db.scans, sc.id = link.1 ∧ sc.preset_name = some p) ∧
      ∀ f, starsF = some f → starsHolds f r = true := by
  rw [rowPasses.eq_def] at h
  simp only [Bool.and_eq_true] at h
  obtain ⟨⟨⟨hpres, hlang⟩, hstars⟩, hsince⟩ := h
  refine ⟨?_, ?_, ?_, ?_⟩
  · intro lg hlg
    subst hlg
    simpa using hlang
  · intro d hd
    subst hd
    simpa using hsince
  · intro p hp
    subst hp
    simp only [List.any_eq_true, Bool.and_eq_true, beq_iff_eq] at hpres
    obtain ⟨link, hlinkmem, hlinkid, sc, hscmem, hscid, hscp⟩ := hpres
    exact ⟨link, hlinkmem, hlinkid, sc, hscmem, hscid, hscp⟩
  · intro f hf
    subst hf
    simpa using hstars

/-- C8: every list `list_repos` returns satisfies the conjunction of all
supplied predicates — exact language match, the star comparison (with
`"N..M"` inclusive at both ends, e.g. `">100"` means more than 100 and
`"10..50"` means between 10 and 50 inclusive), preset membership via
the scan association, and `first_seen >= since` — is ordered by
`first_seen` descending, and holds at most `limit` records; with no
filters it is exactly the most-recently-first-seen `limit` records. -/
theorem listRepos_conjunctive_filters (db : DB)
    (language stars preset since : Option String) (limit : Nat)
    (l : List RepoRow)
    (h : listRepos db language stars preset since limit = some l) :
    l.length ≤ limit ∧
      List.Sorted (fun a b : RepoRow => b.first_seen.data ≤ a.first_seen.data)
        l ∧
      (∀ r ∈ l, ∀ lg, pyOptStr language = some lg → r.language = some lg) ∧
      (∀ r ∈ l, ∀ d, pyOptStr since = some d → d.data ≤ r.first_seen.data) ∧
      (∀ r ∈ l, ∀ p, pyOptStr preset = some p →
        ∃ link ∈ db.scanRepos, link.2 = r.id ∧
          ∃ sc ∈ db.scans, sc.id = link.1 ∧ sc.preset_name = some p) ∧
      (stars = some ">100" → ∀ r ∈ l,
        ∃ v, r.stargazers_count = some v ∧ 100 < v) ∧
      (stars = some "10..50" → ∀ r ∈ l,
        ∃ v, r.stargazers_count = some v ∧ 10 ≤ v ∧ v ≤ 50) ∧
      (language = none → stars = none → preset = none → since = none →
        l = (sortByKeyDesc (fun r => r.first_seen.data) db.repos).take
          limit) := by
  obtain ⟨starsF, hl, hsf⟩ :
      ∃ starsF, l = listReposFiltered db (pyOptStr language) starsF
          (pyOptStr preset) (pyOptStr since) limit ∧
        ((starsF = none ∧ pyOptStr stars = none) ∨
          ∃ sv f, pyOptStr stars = some sv ∧ parseStars sv = some f ∧
            starsF = some f) := by
    cases hso : pyOptStr stars with
    | none =>
      refine ⟨none, ?_, Or.inl ⟨rfl, rfl⟩⟩
      simp only [listRepos, hso] at h
      exact (Option.some.inj h).symm
    | some sv =>
      cases hp : parseStars sv with
      | none =>
        simp only [listRepos, hso, hp] at h
        exact absurd h (by simp)
      | some f =>
        refine ⟨some f, ?_, Or.inr ⟨sv, f, rfl, hp, rfl⟩⟩
        simp only [listRepos, hso, hp] at h
        exact (Option.some.inj h).symm
  subst hl
  obtain ⟨hlen, hsorted, hpass⟩ := listReposFiltered_spec db
    (pyOptStr language) starsF (pyOptStr preset) (pyOptStr since) limit
  refine ⟨hlen, hsorted, ?_, ?_, ?_, ?_, ?_, ?_⟩
  · intro r hr lg hlg
    exact (rowPasses_unpack db _ starsF _ _ r (hpass r hr)).1 lg hlg
  · intro r hr d hd
    exact (rowPasses_unpack db _ starsF _ _ r (hpass r hr)).2.1 d hd
  · intro r hr p hp
    exact (rowPasses_unpack db _ starsF _ _ r (hpass r hr)).2.2.1 p hp
  · intro hstars100 r hr
    subst hstars100
    rcases hsf with ⟨_, hnone⟩ | ⟨sv, f, hsv, hpf, hFf⟩
    · exact absurd hnone (by decide)
    · have hsv' : sv = ">100" := by
        have he : pyOptStr (some ">100") = some ">100" := by decide
        rw [he] at hsv
        exact (Option.some.inj hsv).symm
      subst hsv'
      have hf' : f = StarsFilter.gt 100 := by
        have he : parseStars ">100" = some (StarsFilter.gt 100) := by decide
        rw [he] at hpf
        exact (Option.some.inj hpf).symm
      subst hf'
      subst hFf
      have hstar := (rowPasses_unpack db _ _ _ _ r (hpass r hr)).2.2.2
        (StarsFilter.gt 100) rfl
      cases hv : r.stargazers_count with
      | none => simp [starsHolds, hv] at hstar
      | some v =>
        simp only [starsHolds, hv, decide_eq_true_eq] at hstar
        exact ⟨v, rfl, by exact_mod_cast hstar⟩
  · intro hstarsrange r hr
    subst hstarsrange
    rcases hsf with ⟨_, hnone⟩ | ⟨sv, f, hsv, hpf, hFf⟩
    · exact absurd hnone (by decide)
    · have hsv' : sv = "10..50" := by
        have he : pyOptStr (some "10..50") = some "10..50" := by decide
        rw [he] at hsv
        exact (Option.some.inj hsv).symm
      subst hsv'
      have hf' : f = StarsFilter.range 10 50 := by
        have he : parseStars "10..50" = some (StarsFilter.range 10 50) := by
          decide
        rw [he] at hpf
        exact (Option.some.inj hpf).symm
      subst hf'
      subst hFf
      have hstar := (rowPasses_unpack db _ _ _ _ r (hpass r hr)).2.2.2
        (StarsFilter.range 10 50) rfl
      cases hv : r.stargazers_count with
      | none => simp [starsHolds, hv] at hstar
      | some v =>
        simp only [starsHolds, hv, Bool.and_eq_true, decide_eq_true_eq]
          at hstar
        exact ⟨v, rfl, by exact_mod_cast hstar.1, by exact_mod_cast hstar.2⟩
  · intro hlang hstars hpres hsince
    subst hlang
    subst hpres
    subst hsince
    rcases hsf with ⟨hFnone, _⟩ | ⟨sv, f, hsv, _, _⟩
    · subst hFnone
      have hfilter :
          db.repos.filter (rowPasses db (pyOptStr none) none (pyOptStr none)
            (pyOptStr none)) = db.repos :=
        List.filter_eq_self.2 (fun a _ => rfl)
      rw [listReposFiltered, hfilter]
    · subst hstars
      simp [pyOptStr] at hsv

/-- Witness for C8: a one-row store filtered by language and stars. -/
theorem listRepos_conjunctive_filters_witness :
    listRepos dbGo (some "Go") (some ">100") none none 50 = some [rowGo] ∧
      ∀ r ∈ [rowGo], r.language = some "Go" ∧
        ∃ v, r.stargazers_count = some v ∧ 100 < v := by
  have h : listRepos dbGo (some "Go") (some ">100") none none 50 =
      some [rowGo] := by decide
  have hc := listRepos_conjunctive_filters dbGo (some "Go") (some ">100")
    none none 50 [rowGo] h
  refine ⟨h, fun r hr => ⟨?_, ?_⟩⟩
  · exact hc.2.2.1 r hr "Go" (by decide)
  · exact hc.2.2.2.2.2.1 rfl r hr

/-- C9: starting from a fresh store, after any sequence of `save_scan`,
`save_repo`, `clear_scans` and `clear_all` operations executed at
nondecreasing wall-clock timestamps, the reached state has at most one
repository row per `full_name`, and every row satisfies
`first_seen <= last_seen`. -/
theorem reachable_store_invariant (ops : List (Op × String))
    (hchron : (ops.map Prod.snd).Pairwise (fun a b => a.data ≤ b.data)) :
    namesUnique (runOps emptyDB ops).repos ∧
      seenOrdered (runOps emptyDB ops).repos := by
  cases ops with
  | nil =>
    exact ⟨List.Pairwise.nil, fun r hr => absurd hr (by simp [runOps, emptyDB])⟩
  | cons hd rest =>
    obtain ⟨op, t⟩ := hd
    rw [List.map_cons, List.pairwise_cons] at hchron
    have h0 : namesUnique emptyDB.repos := List.Pairwise.nil
    have h1 : seenOrdered emptyDB.repos := fun r hr => absurd hr (by simp [emptyDB])
    have h2 : seenBounded emptyDB.repos t := fun r hr => absurd hr (by simp [emptyDB])
    have step := applyOp_inv emptyDB op t t h0 h1 h2 le_rfl
    rw [runOps]
    exact runOps_inv rest (applyOp emptyDB op t) t step.1 step.2.1 step.2.2
      (fun p hp => hchron.1 p.2 (List.mem_map.2 ⟨p, hp, rfl⟩)) hchron.2

/-- Witness for C9: two sightings of a repository in the same instant,
then a scan clear. -/
theorem reachable_store_invariant_witness :
    namesUnique (runOps emptyDB
      [(Op.repo itemR1v2, "2024-01-01T00:00:00+00:00"),
       (Op.repo itemR1v2, "2024-01-01T00:00:00+00:00"),
       (Op.clearScansOp, "2024-01-01T00:00:00+00:00")]).repos ∧
      seenOrdered (runOps emptyDB
        [(Op.repo itemR1v2, "2024-01-01T00:00:00+00:00"),
         (Op.repo itemR1v2, "2024-01-01T00:00:00+00:00"),
         (Op.clearScansOp, "2024-01-01T00:00:00+00:00")]).repos :=
  reachable_store_invariant _ (by simp)

/-- C10: `list_repos` is not total in its stars argument: a stars string
outside the shapes `">N"`, `"<N"`, `"N..M"` and bare integer — for
example `">=1"`, which the spec's filter section lists as supported for
search, or a non-numeric value — drives the unguarded `int()`
conversion into a raised `ValueError` (modelled as `none`) instead of a
result list, whatever the store contents and other filters. -/
theorem listRepos_stars_not_total (db : DB)
    (language preset since : Option String) (limit : Nat) :
    listRepos db language (some ">=1") preset since limit = none ∧
      listRepos db language (some "abc") preset since limit = none := by
  constructor
  · have h0 : pyOptStr (some ">=1") = some ">=1" := by decide
    have h : parseStars ">=1" = none := by decide
    simp [listRepos, h0, h]
  · have h0 : pyOptStr (some "abc") = some "abc" := by decide
    have h : parseStars "abc" = none := by decide
    simp [listRepos, h0, h]
